import Mathlib

/-!
Verification development for the WebMania beatmap parser
(`src/modules/parser.ts`).  The TypeScript module is shallowly embedded:
strings become `List Char`, JavaScript numbers become `ℕ`/`ℤ`/`ℚ` (the
parser only ever produces exact decimal values, so rationals model the
doubles faithfully on the inputs at hand), regular-expression matching is
translated into explicit scanning functions that reproduce the
backtracking behaviour of the concrete patterns, and the one `throw` is
an `Except.error`.
-/

namespace WebMania

/-- ASCII lower-casing, modelling the `i` flag of the JavaScript regexes. -/
def lcChar (c : Char) : Char :=
  if 'A' ≤ c ∧ c ≤ 'Z' then Char.ofNat (c.toNat + 32) else c

def lcList (l : List Char) : List Char := l.map lcChar

/-- Case-insensitive prefix test. -/
def isPrefixCI (pat l : List Char) : Bool := (lcList pat).isPrefixOf (lcList l)

/-- Index of the first case-insensitive occurrence of `pat` in the text. -/
def findCI (pat : List Char) : List Char → Option Nat
  | [] => if isPrefixCI pat [] then some 0 else none
  | c :: t => if isPrefixCI pat (c :: t) then some 0 else (findCI pat t).map (· + 1)

/-- Models `text.split(pattern)[1]` for a literal case-insensitive pattern:
the text strictly between the first occurrence and the second occurrence
(or the end of the text); `none` when the pattern does not occur, which is
JavaScript's `undefined`. -/
def splitPart1CI (pat text : List Char) : Option (List Char) :=
  match findCI pat text with
  | none => none
  | some i =>
    let rest := text.drop (i + pat.length)
    match findCI pat rest with
    | none => some rest
    | some j => some (rest.take j)

/-- Split on `'\n'`. -/
def splitOnNl : List Char → List (List Char)
  | [] => [[]]
  | c :: t =>
    if c = '\n' then [] :: splitOnNl t
    else
      match splitOnNl t with
      | [] => [[c]]
      | h :: r => (c :: h) :: r

/-- Drop one trailing `'\r'`, so that splitting on `'\n'` and applying this
models `split(/\r?\n/)`. -/
def dropTrailCr (l : List Char) : List Char :=
  if l.getLast? = some '\r' then l.dropLast else l

/-- Models `String.prototype.split(/\r?\n/)`. -/
def splitLines (text : List Char) : List (List Char) :=
  (splitOnNl text).map dropTrailCr

/-- The JavaScript whitespace class (`\s`, also used by `trim`). -/
def wsChars : List Char :=
  [' ', '\t', '\n', '\x0b', '\x0c', '\r', '\u00a0', '\u1680', '\u2000',
   '\u2001', '\u2002', '\u2003', '\u2004', '\u2005', '\u2006', '\u2007',
   '\u2008', '\u2009', '\u200a', '\u2028', '\u2029', '\u202f', '\u205f',
   '\u3000', '\ufeff']

def isWsJS (c : Char) : Bool := wsChars.contains c

/-- JavaScript line terminators, which `.` in a regex does not match. -/
def isLineTermJS (c : Char) : Bool :=
  c == '\n' || c == '\r' || c == '\u2028' || c == '\u2029'

/-- Models `String.prototype.trim`. -/
def trimJS (l : List Char) : List Char :=
  ((l.dropWhile isWsJS).reverse.dropWhile isWsJS).reverse

/-- Numeric value of a digit string, as read by `parseInt`. -/
def digitsVal (l : List Char) : ℕ :=
  l.foldl (fun a c => 10 * a + (c.toNat - 48)) 0

/-- A maximal nonempty digit run (a greedy `(\d+)`), with the rest of the
input. -/
def natField (l : List Char) : Option (ℕ × List Char) :=
  let ds := l.takeWhile Char.isDigit
  if ds.isEmpty then none else some (digitsVal ds, l.dropWhile Char.isDigit)

/-- A `(\d+)` immediately followed by a literal comma. -/
def natFieldComma (l : List Char) : Option (ℕ × List Char) :=
  match natField l with
  | some (n, ',' :: r) => some (n, r)
  | _ => none

/-- Exact value of the JavaScript decimal literal `intPart.fracDigits`
(negated when `neg`); built with `mkRat` so that it evaluates in the
kernel. -/
def decValue (neg : Bool) (ip : ℕ) (fr : List Char) : ℚ :=
  let n : ℤ := (ip : ℤ) * (10 ^ fr.length) + (digitsVal fr : ℤ)
  mkRat (if neg then -n else n) (10 ^ fr.length)

/-- A greedy `(-?\d+(?:\.\d+)?)` with the rest of the input.  When the
optional fractional part fails to match (a dot not followed by a digit)
the dot is left unconsumed, exactly as the regex does. -/
def decField (l : List Char) : Option (ℚ × List Char) :=
  let neg : Bool := l.head? == some '-'
  let l1 : List Char := if neg then l.tail else l
  let ds := l1.takeWhile Char.isDigit
  if ds.isEmpty then none
  else
    let r := l1.dropWhile Char.isDigit
    if r.head? == some '.' then
      let f := r.tail.takeWhile Char.isDigit
      if f.isEmpty then some (decValue neg (digitsVal ds) [], r)
      else some (decValue neg (digitsVal ds) f, r.tail.dropWhile Char.isDigit)
    else some (decValue neg (digitsVal ds) [], r)

/-- A decimal field immediately followed by a literal comma. -/
def decFieldComma (l : List Char) : Option (ℚ × List Char) :=
  match decField l with
  | some (q, ',' :: r) => some (q, r)
  | _ => none

structure TimingPoint where
  time : ℚ
  beatLength : ℚ
  meter : ℕ
  sampleSet : ℕ
  sampleIndex : ℕ
  volume : ℕ
  uninherited : Bool
  effects : ℕ
deriving DecidableEq, Repr

/-- One line matched against
`/^(-?\d+(?:\.\d+)?),(-?\d+(?:\.\d+)?),(\d+),(\d+),(\d+),(\d+),([01]),(\d+)$/`,
with the captures converted exactly as in the source. -/
def parseTimingLine (line : List Char) : Option TimingPoint :=
  match decFieldComma line with
  | none => none
  | some (time, r1) =>
    match decFieldComma r1 with
    | none => none
    | some (beatLength, r2) =>
      match natFieldComma r2 with
      | none => none
      | some (meter, r3) =>
        match natFieldComma r3 with
        | none => none
        | some (sampleSet, r4) =>
          match natFieldComma r4 with
          | none => none
          | some (sampleIndex, r5) =>
            match natFieldComma r5 with
            | none => none
            | some (volume, r6) =>
              match r6 with
              | c :: ',' :: r7 =>
                if c == '0' || c == '1' then
                  match natField r7 with
                  | some (effects, []) =>
                    some { time := time, beatLength := beatLength,
                           meter := meter, sampleSet := sampleSet,
                           sampleIndex := sampleIndex, volume := volume,
                           uninherited := c == '1', effects := effects }
                  | _ => none
                else none
              | _ => none

/-- The line filter shared by both section parsers: keep nonempty lines
that do not start with `//` or `[`. -/
def keepLine (l : List Char) : Bool :=
  !l.isEmpty && !(['/', '/'].isPrefixOf l) && !(['['].isPrefixOf l)

/-- Split a section text into trimmed, filtered lines. -/
def sectionLines (sec : List Char) : List (List Char) :=
  ((splitLines sec).map trimJS).filter keepLine

/-- Insert `a` into a sorted list, after every element `b` with
`le b a` — so that the fold below is a stable sort. -/
def insertBy {α : Type} (le : α → α → Bool) (a : α) : List α → List α
  | [] => [a]
  | b :: t => if le b a then b :: insertBy le a t else a :: b :: t

/-- Models `Array.prototype.sort` with the numeric comparator
`(a, b) => key a - key b`: a stable sort of the list with respect to
`le` (insertion sort here, which the kernel can evaluate; the
specification of `sort` only promises a sorted, stable result). -/
def sortBy {α : Type} (le : α → α → Bool) (l : List α) : List α :=
  l.foldl (fun acc a => insertBy le a acc) []

def tpLe (a b : TimingPoint) : Bool := decide (a.time ≤ b.time)

def timingPointsHeader : List Char := (r"[TimingPoints]").data

def parseTimingPoints (content : List Char) : List TimingPoint :=
  match splitPart1CI timingPointsHeader content with
  | none => []
  | some sec =>
    if sec.isEmpty then []
    else sortBy tpLe ((sectionLines sec).filterMap parseTimingLine)

structure HitObject where
  x : ℕ
  y : ℕ
  time : ℕ
  type : ℕ
  hitSound : ℕ
  objectParams : Option (List Char)
  hitSample : Option (List Char)
  column : Option ℤ
  isLongNote : Option Bool
  endTime : Option ℕ
deriving DecidableEq, Repr

/-- The optional tail `(?:,([^,]+))?(?:,(.+))?$` of the hit-object regex,
applied to what remains after the five mandatory fields; reproduces the
backtracking of the engine (when the first optional group matches but
nothing can complete the line, it is given up and the second group takes
everything after the first comma). -/
def tailParams : List Char → Option (Option (List Char) × Option (List Char))
  | [] => some (none, none)
  | ',' :: t =>
    let a := t.takeWhile (fun c => !(c == ','))
    let b := t.drop a.length
    if a.isEmpty then
      if !t.isEmpty && t.all (fun c => !isLineTermJS c) then some (none, some t)
      else none
    else
      match b with
      | [] => some (some a, none)
      | _ :: u =>
        if !u.isEmpty && u.all (fun c => !isLineTermJS c) then
          some (some a, some u)
        else if t.all (fun c => !isLineTermJS c) then some (none, some t)
        else none
  | _ => none

/-- One attempt of `/(\d+):(\d+):(\d+):(\d+):(.+)/` anchored at the
current position; returns the first capture. -/
def holdAt (l : List Char) : Option ℕ :=
  match natField l with
  | some (n1, ':' :: r1) =>
    match natField r1 with
    | some (_, ':' :: r2) =>
      match natField r2 with
      | some (_, ':' :: r3) =>
        match natField r3 with
        | some (_, ':' :: r4) =>
          match r4 with
          | c :: _ => if isLineTermJS c then none else some n1
          | [] => none
        | _ => none
      | _ => none
    | _ => none
  | _ => none

/-- The unanchored search `objectParams.match(/(\d+):(\d+):(\d+):(\d+):(.+)/)`:
leftmost match wins. -/
def decodeEnd : List Char → Option ℕ
  | [] => none
  | c :: t =>
    match holdAt (c :: t) with
    | some n => some n
    | none => decodeEnd t

/-- `Math.floor((x * keyCount) / 512)` computed exactly on the rational
key count. -/
def columnOf (x : ℕ) (keyCount : ℚ) : ℤ :=
  ((x : ℤ) * keyCount.num).fdiv (512 * (keyCount.den : ℤ))

/-- One line matched against
`/^(\d+),(\d+),(\d+),(\d+),(\d+)(?:,([^,]+))?(?:,(.+))?$/` and turned into
a `HitObject` with the derived fields, exactly as in the loop body of
`parseHitObjects`. -/
def parseHitObjectLine (keyCount : ℚ) (line : List Char) : Option HitObject :=
  match natFieldComma line with
  | none => none
  | some (x, r1) =>
    match natFieldComma r1 with
    | none => none
    | some (y, r2) =>
      match natFieldComma r2 with
      | none => none
      | some (time, r3) =>
        match natFieldComma r3 with
        | none => none
        | some (ty, r4) =>
          match natField r4 with
          | none => none
          | some (hitSound, r5) =>
            match tailParams r5 with
            | none => none
            | some (op, hs) =>
              let isLN : Bool := Nat.land ty 128 != 0
              let et0 : Option ℕ := if isLN then op.bind decodeEnd else none
              let endT : ℕ :=
                match et0 with
                | some v => if v = 0 then time else v
                | none => time
              some { x := x, y := y, time := time, type := ty,
                     hitSound := hitSound, objectParams := op,
                     hitSample := hs,
                     column := some (columnOf x keyCount),
                     isLongNote := some isLN,
                     endTime := some endT }

def hoLe (a b : HitObject) : Bool := decide (a.time ≤ b.time)

def hitObjectsHeader : List Char := (r"[HitObjects]").data

def missingHitObjectsMsg : List Char :=
  (r"Section [HitObjects] introuvable dans le fichier .osu").data

def parseHitObjects (content : List Char) (keyCount : ℚ) :
    Except (List Char) (List HitObject) :=
  match splitPart1CI hitObjectsHeader content with
  | none => Except.error missingHitObjectsMsg
  | some sec =>
    if sec.isEmpty then Except.error missingHitObjectsMsg
    else
      Except.ok
        (sortBy hoLe ((sectionLines sec).filterMap (parseHitObjectLine keyCount)))

structure MapMetadata where
  title : Option (List Char)
  artist : Option (List Char)
  creator : Option (List Char)
  version : Option (List Char)
  audioFilename : Option (List Char)
  mode : Option ℕ
  circleSize : Option ℚ
deriving DecidableEq, Repr

/-- Models `/\[Name\]([\s\S]*?)(?=\[|$)/i`: the text after the first
case-insensitive occurrence of the header, up to (excluding) the next
`[` or the end of the text. -/
def sectionBody (header text : List Char) : Option (List Char) :=
  match findCI header text with
  | none => none
  | some i =>
    some ((text.drop (i + header.length)).takeWhile (fun c => !(c == '[')))

/-- Leftmost-match scan for a regex of the shape `key …`: at each
position where `key` occurs case-insensitively, try the tail matcher; on
failure resume scanning further right, as the engine does. -/
def scanCI {α : Type} (key : List Char) (tryAt : List Char → Option α) :
    List Char → Option α
  | [] => none
  | c :: t =>
    if isPrefixCI key (c :: t) then
      match tryAt ((c :: t).drop key.length) with
      | some v => some v
      | none => scanCI key tryAt t
    else scanCI key tryAt t

/-- Tail matcher for `\s*(.+)` followed by `.trim()` on the capture.
`\s*` is greedy and may cross newlines; if only whitespace remains, the
engine backtracks and captures a single non-line-terminator whitespace
character when one exists (which then trims to the empty string). -/
def strValueAt (r : List Char) : Option (List Char) :=
  let s := r.dropWhile isWsJS
  if s.isEmpty then
    if r.any (fun c => !isLineTermJS c) then some [] else none
  else some (trimJS (s.takeWhile (fun c => !isLineTermJS c)))

/-- Tail matcher for `\s*(\d+)` followed by `parseInt` on the capture. -/
def natValueAt (r : List Char) : Option ℕ :=
  (natField (r.dropWhile isWsJS)).map Prod.fst

def isDigitDot (c : Char) : Bool := c.isDigit || c == '.'

/-- Tail matcher for `\s*([\d.]+)`: the raw capture. -/
def floatCapAt (r : List Char) : Option (List Char) :=
  let cap := (r.dropWhile isWsJS).takeWhile isDigitDot
  if cap.isEmpty then none else some cap

/-- `parseFloat` on a nonempty string of digits and dots; `none` models
`NaN` (no leading number).  The parse of `circleSize` stores `NaN` in the
same way as an absent field, which is faithful here because the module
reads `circleSize` only through `circleSize || 4`, where `NaN` and
`undefined` behave identically. -/
def parseFloatPre (l : List Char) : Option ℚ :=
  let ds := l.takeWhile Char.isDigit
  let r := l.drop ds.length
  match r with
  | '.' :: t =>
    let f := t.takeWhile Char.isDigit
    if ds.isEmpty && f.isEmpty then none
    else some (decValue false (digitsVal ds) f)
  | _ => if ds.isEmpty then none else some (decValue false (digitsVal ds) [])

def generalHeader : List Char := (r"[General]").data
def metadataHeader : List Char := (r"[Metadata]").data
def difficultyHeader : List Char := (r"[Difficulty]").data

def parseMetadata (content : List Char) : MapMetadata :=
  let general := sectionBody generalHeader content
  let md := sectionBody metadataHeader content
  let diff := sectionBody difficultyHeader content
  { title := md.bind (scanCI ((r"Title:").data) strValueAt)
  , artist := md.bind (scanCI ((r"Artist:").data) strValueAt)
  , creator := md.bind (scanCI ((r"Creator:").data) strValueAt)
  , version := md.bind (scanCI ((r"Version:").data) strValueAt)
  , audioFilename := general.bind (scanCI ((r"AudioFilename:").data) strValueAt)
  , mode := general.bind (scanCI ((r"Mode:").data) natValueAt)
  , circleSize := (diff.bind (scanCI ((r"CircleSize:").data) floatCapAt)).bind parseFloatPre }

/-- `metadata.circleSize || 4`. -/
def orFour (c : Option ℚ) : ℚ :=
  match c with
  | some v => if v = 0 then 4 else v
  | none => 4

structure ParsedMap where
  hitObjects : List HitObject
  timingPoints : List TimingPoint
  metadata : MapMetadata
  noteCount : ℕ
  longNoteCount : ℕ
  duration : ℕ
  keyCount : ℚ
deriving DecidableEq, Repr

/-- `obj.endTime || obj.time`, as read by the duration computation. -/
def durationVal (o : HitObject) : ℕ :=
  match o.endTime with
  | some e => if e = 0 then o.time else e
  | none => o.time

def parseOsuFile (content : List Char) : Except (List Char) ParsedMap :=
  let metadata := parseMetadata content
  let timingPoints := parseTimingPoints content
  match parseHitObjects content (orFour metadata.circleSize) with
  | Except.error e => Except.error e
  | Except.ok hitObjects =>
    Except.ok
      { hitObjects := hitObjects
      , timingPoints := timingPoints
      , metadata := metadata
      , noteCount := hitObjects.length
      , longNoteCount := (hitObjects.filter (fun o => o.isLongNote == some true)).length
      , duration :=
          if hitObjects.length > 0 then (hitObjects.map durationVal).foldl max 0
          else 0
      , keyCount := orFour metadata.circleSize }

/-- `obj.column ?? 0`. -/
def effColumn (o : HitObject) : ℤ := o.column.getD 0

/-- The loop body of `organizeNotesByColumn`: bounds-check the effective
column and push the object onto that bucket. -/
def organizeStep (keyCount : ℕ) (cols : List (List HitObject)) (obj : HitObject) :
    List (List HitObject) :=
  if 0 ≤ effColumn obj ∧ effColumn obj < (keyCount : ℤ) then
    cols.set (effColumn obj).toNat ((cols.getD (effColumn obj).toNat []) ++ [obj])
  else cols

def organizeNotesByColumn (hitObjects : List HitObject) (keyCount : ℕ) :
    List (List HitObject) :=
  hitObjects.foldl (organizeStep keyCount) (List.replicate keyCount [])

/-- A hit object whose optional `column` is absent, exercising the
`?? 0` default of the organizer. -/
def objNoCol : HitObject :=
  { x := 7, y := 0, time := 3, type := 1, hitSound := 0,
    objectParams := none, hitSample := none,
    column := none, isLongNote := none, endTime := none }

/-- The parse of the line `256,0,5,1,0` at key count 4, used for
concrete instantiations. -/
def noteA : HitObject :=
  { x := 256, y := 0, time := 5, type := 1, hitSound := 0,
    objectParams := none, hitSample := none,
    column := some 2, isLongNote := some false, endTime := some 5 }

/-- The parse of the line `448,192,1000,128,0,5000:0:0:0:L1:1` at key
count 4, used for concrete instantiations. -/
def noteHold : HitObject :=
  { x := 448, y := 192, time := 1000, type := 128, hitSound := 0,
    objectParams := some ((r"5000:0:0:0:L1:1").data), hitSample := none,
    column := some 3, isLongNote := some true, endTime := some 5000 }

/-- The parse of the line `0,0,100,1,0` at key count 4. -/
def noteB : HitObject :=
  { x := 0, y := 0, time := 100, type := 1, hitSound := 0,
    objectParams := none, hitSample := none,
    column := some 0, isLongNote := some false, endTime := some 100 }

/-- The `ParsedMap` produced for the two-line input holding only a
`[HitObjects]` section with the line `0,0,100,1,0`. -/
def mapA : ParsedMap :=
  { hitObjects := [noteB], timingPoints := [],
    metadata := { title := none, artist := none, creator := none,
                  version := none, audioFilename := none, mode := none,
                  circleSize := none },
    noteCount := 1, longNoteCount := 0, duration := 100, keyCount := 4 }

/-- The parse of the timing line `100,-50.5,4,0,0,70,1,0`, used for the
round-trip witness. -/
def tpA : TimingPoint :=
  { time := 100, beatLength := mkRat (-101) 2, meter := 4, sampleSet := 0,
    sampleIndex := 0, volume := 70, uninherited := true, effects := 0 }

/-- The input `[Metadata]` + newline + `Subtitle:Hello`, on which the
implemented field extraction and the specified per-line prefix
extraction disagree. -/
def metaCex : List Char := (r"[Metadata]").data ++ '\n' :: (r"Subtitle:Hello").data

/-- Decimal digit character. -/
def digitChar (d : ℕ) : Char := Char.ofNat (48 + d)

/-- Big-endian decimal digits of a positive natural number. -/
def natDigits (n : ℕ) : List Char := ((Nat.digits 10 n).map digitChar).reverse

/-- Plain decimal rendering of a natural number. -/
def fmtNat (n : ℕ) : List Char := if n = 0 then ['0'] else natDigits n

/-- `k` decimal digits rendering `m < 10^k`, zero-padded on the left. -/
def fracDigits (k m : ℕ) : List Char :=
  List.replicate (k - (Nat.digits 10 m).length) '0' ++ natDigits m

/-- Plain decimal rendering of a rational whose denominator divides a
power of ten (the only rationals the timing-point parser produces);
integers are rendered without a fractional part. -/
def fmtDec (q : ℚ) : List Char :=
  let sign : List Char := if q.num < 0 then ['-'] else []
  let n := q.num.natAbs
  let d := q.den
  if d = 1 then sign ++ fmtNat n
  else
    let t := n * 10 ^ d / d
    sign ++ fmtNat (t / 10 ^ d) ++ '.' :: fracDigits d (t % 10 ^ d)

/-- Modelled from the spec: the source repository has no serializer for
timing points; §8 of the specification speaks of "formatting a
TimingPoint back to its canonical comma form".  Canonical comma form:
the eight fields in source order, comma-separated, numbers in plain
decimal notation and the uninherited flag as `1`/`0`. -/
def formatTimingPoint (tp : TimingPoint) : List Char :=
  fmtDec tp.time ++ (',' ::
    (fmtDec tp.beatLength ++ (',' ::
      (fmtNat tp.meter ++ (',' ::
        (fmtNat tp.sampleSet ++ (',' ::
          (fmtNat tp.sampleIndex ++ (',' ::
            (fmtNat tp.volume ++ (',' ::
              ((if tp.uninherited then ['1'] else ['0']) ++ (',' ::
                fmtNat tp.effects)))))))))))))

/-- Modelled from the spec: "each field is extracted independently by a
case-insensitive `Key:` prefix match on any line", the value being the
rest of that line, trimmed.  Used to compare the specified extraction
with the implemented one. -/
def prefixFieldSpec (key : List Char) (body : List Char) : Option (List Char) :=
  (splitLines body).findSome?
    (fun ln => if isPrefixCI key ln then some (trimJS (ln.drop key.length)) else none)

/-! ### Lemmas about the stable sort -/

theorem mem_insertBy {α : Type} (le : α → α → Bool) (a x : α) :
    ∀ l : List α, (x ∈ insertBy le a l ↔ x = a ∨ x ∈ l)
  | [] => by simp [insertBy]
  | b :: t => by
    simp only [insertBy]
    split
    · rw [List.mem_cons, mem_insertBy le a x t, List.mem_cons]
      tauto
    · exact List.mem_cons

theorem pairwise_insertBy {α : Type} (le : α → α → Bool)
    (htr : ∀ a b c, le a b = true → le b c = true → le a c = true)
    (hto : ∀ a b, le a b = true ∨ le b a = true) (a : α) :
    ∀ l : List α, l.Pairwise (fun x y => le x y = true) →
      (insertBy le a l).Pairwise (fun x y => le x y = true)
  | [], _ => by simp [insertBy]
  | b :: t, h => by
    rw [List.pairwise_cons] at h
    obtain ⟨hb, ht⟩ := h
    simp only [insertBy]
    split
    · rename_i hba
      rw [List.pairwise_cons]
      refine ⟨?_, pairwise_insertBy le htr hto a t ht⟩
      intro x hx
      rcases (mem_insertBy le a x t).mp hx with rfl | hxt
      · exact hba
      · exact hb x hxt
    · rename_i hba
      have hab : le a b = true := by
        rcases hto a b with h1 | h1
        · exact h1
        · exact absurd h1 hba
      rw [List.pairwise_cons]
      refine ⟨?_, List.pairwise_cons.mpr ⟨hb, ht⟩⟩
      intro x hx
      rcases List.mem_cons.mp hx with rfl | hxt
      · exact hab
      · exact htr a b x hab (hb x hxt)

theorem pairwise_sortBy_aux {α : Type} (le : α → α → Bool)
    (htr : ∀ a b c, le a b = true → le b c = true → le a c = true)
    (hto : ∀ a b, le a b = true ∨ le b a = true) :
    ∀ (l acc : List α), acc.Pairwise (fun x y => le x y = true) →
      (l.foldl (fun acc a => insertBy le a acc) acc).Pairwise
        (fun x y => le x y = true)
  | [], _, h => h
  | a :: t, acc, h =>
    pairwise_sortBy_aux le htr hto t _ (pairwise_insertBy le htr hto a acc h)

theorem pairwise_sortBy {α : Type} (le : α → α → Bool)
    (htr : ∀ a b c, le a b = true → le b c = true → le a c = true)
    (hto : ∀ a b, le a b = true ∨ le b a = true) (l : List α) :
    (sortBy le l).Pairwise (fun x y => le x y = true) :=
  pairwise_sortBy_aux le htr hto l [] List.Pairwise.nil

theorem mem_sortBy_aux {α : Type} (le : α → α → Bool) (x : α) :
    ∀ (l acc : List α),
      (x ∈ l.foldl (fun acc a => insertBy le a acc) acc ↔ x ∈ l ∨ x ∈ acc)
  | [], acc => by simp
  | a :: t, acc => by
    rw [List.foldl_cons, mem_sortBy_aux le x t (insertBy le a acc),
      mem_insertBy le a x acc]
    simp only [List.mem_cons]
    tauto

theorem mem_sortBy {α : Type} (le : α → α → Bool) (x : α) (l : List α) :
    x ∈ sortBy le l ↔ x ∈ l := by
  rw [sortBy, mem_sortBy_aux le x l []]
  simp

theorem tpLe_trans : ∀ a b c, tpLe a b = true → tpLe b c = true → tpLe a c = true := by
  intro a b c hab hbc
  simp only [tpLe, decide_eq_true_eq] at *
  exact le_trans hab hbc

theorem tpLe_total : ∀ a b, tpLe a b = true ∨ tpLe b a = true := by
  intro a b
  simp only [tpLe, decide_eq_true_eq]
  exact le_total a.time b.time

theorem hoLe_trans : ∀ a b c, hoLe a b = true → hoLe b c = true → hoLe a c = true := by
  intro a b c hab hbc
  simp only [hoLe, decide_eq_true_eq] at *
  exact le_trans hab hbc

theorem hoLe_total : ∀ a b, hoLe a b = true ∨ hoLe b a = true := by
  intro a b
  simp only [hoLe, decide_eq_true_eq]
  exact le_total a.time b.time

/-- C6: whatever the ordering of the lines inside the `[TimingPoints]`
and `[HitObjects]` sections of the input text, the produced timing-point
sequence is non-decreasing in `time`, and so is the hit-object sequence
whenever the hit-object parse succeeds. -/
theorem sequences_sorted_by_time :
    ∀ content : List Char,
      (parseTimingPoints content).Pairwise (fun a b => a.time ≤ b.time) ∧
      (∀ (k : ℚ) (l : List HitObject),
        parseHitObjects content k = Except.ok l →
          l.Pairwise (fun a b => a.time ≤ b.time)) := by
  intro content
  constructor
  · unfold parseTimingPoints
    split
    · exact List.Pairwise.nil
    · split
      · exact List.Pairwise.nil
      · exact (pairwise_sortBy tpLe tpLe_trans tpLe_total _).imp
          (fun h => by simpa [tpLe, decide_eq_true_eq] using h)
  · intro k l h
    unfold parseHitObjects at h
    split at h
    · exact absurd h (by simp)
    · split at h
      · exact absurd h (by simp)
      · have hl := Except.ok.inj h
        subst hl
        exact (pairwise_sortBy hoLe hoLe_trans hoLe_total _).imp
          (fun h => by simpa [hoLe, decide_eq_true_eq] using h)

/-- Witness for C6 at a concrete input whose section lines are out of
order. -/
theorem sequences_sorted_by_time_witness :
    ([{ x := 0, y := 0, time := 10, type := 1, hitSound := 0,
        objectParams := none, hitSample := none, column := some 0,
        isLongNote := some false, endTime := some 10 },
      { x := 0, y := 0, time := 50, type := 1, hitSound := 0,
        objectParams := none, hitSample := none, column := some 0,
        isLongNote := some false, endTime := some 50 }] :
      List HitObject).Pairwise (fun a b => a.time ≤ b.time) :=
  (sequences_sorted_by_time
      ((r"[HitObjects]").data ++ '\n' ::
        ((r"0,0,50,1,0").data ++ '\n' :: (r"0,0,10,1,0").data))).2 4 _ (by rfl)

/-! ### Lemmas about the column organizer -/

theorem organizeStep_length (k : ℕ) (cols : List (List HitObject)) (o : HitObject) :
    (organizeStep k cols o).length = cols.length := by
  unfold organizeStep
  split
  · exact List.length_set cols _ _
  · rfl

theorem organize_foldl_length (k : ℕ) :
    ∀ (l : List HitObject) (acc : List (List HitObject)),
      (l.foldl (organizeStep k) acc).length = acc.length
  | [], _ => rfl
  | o :: t, acc => by
    rw [List.foldl_cons, organize_foldl_length k t (organizeStep k acc o),
      organizeStep_length]

theorem organize_length (hos : List HitObject) (k : ℕ) :
    (organizeNotesByColumn hos k).length = k := by
  unfold organizeNotesByColumn
  rw [organize_foldl_length, List.length_replicate]

theorem organize_foldl_getElem (k : ℕ) :
    ∀ (l : List HitObject) (acc : List (List HitObject)), acc.length = k →
      ∀ i : ℕ,
        (l.foldl (organizeStep k) acc)[i]? =
          (acc[i]?).map (fun b => b ++ l.filter (fun o => effColumn o == (i : ℤ)))
  | [], acc, _, i => by simp
  | o :: t, acc, hacc, i => by
    rw [List.foldl_cons,
      organize_foldl_getElem k t (organizeStep k acc o)
        (by rw [organizeStep_length]; exact hacc) i]
    by_cases hik : i < acc.length
    · obtain ⟨b, hb⟩ : ∃ b, acc[i]? = some b := ⟨acc[i], List.getElem?_eq_getElem hik⟩
      have hfil : List.filter (fun o => effColumn o == (i : ℤ)) (o :: t) =
          (if effColumn o == (i : ℤ) then [o] else []) ++
            List.filter (fun o => effColumn o == (i : ℤ)) t := by
        by_cases hoi : effColumn o == (i : ℤ)
        · simp [List.filter_cons, hoi]
        · simp [List.filter_cons, hoi]
      rw [hfil]
      unfold organizeStep
      by_cases hin : 0 ≤ effColumn o ∧ effColumn o < (k : ℤ)
      · rw [if_pos hin]
        rw [List.getElem?_set]
        by_cases heq : (effColumn o).toNat = i
        · have hcol : effColumn o = (i : ℤ) := by
            rw [← heq, Int.toNat_of_nonneg hin.1]
          rw [if_pos heq, if_pos (heq ▸ hik), hb]
          have hgd : acc.getD (effColumn o).toNat [] = b := by
            rw [heq, List.getD_eq_getElem?_getD, hb, Option.getD_some]
          rw [hgd]
          simp [hcol, List.append_assoc]
        · have hcol : ¬ (effColumn o == (i : ℤ)) = true := by
            intro hco
            rw [beq_iff_eq] at hco
            exact heq (by rw [hco]; simp)
          rw [if_neg heq, hb]
          simp [hcol]
      · rw [if_neg hin, hb]
        have hcol : ¬ (effColumn o == (i : ℤ)) = true := by
          intro hco
          rw [beq_iff_eq] at hco
          refine hin ⟨by rw [hco]; exact Int.natCast_nonneg i, ?_⟩
          rw [hco]
          exact_mod_cast hacc ▸ hik
        simp [hcol]
    · have hnone : acc[i]? = none := List.getElem?_eq_none (le_of_not_lt hik)
      have hnone' : (organizeStep k acc o)[i]? = none :=
        List.getElem?_eq_none (by rw [organizeStep_length]; exact le_of_not_lt hik)
      rw [hnone, hnone']
      rfl

theorem organize_getElem (hos : List HitObject) (k i : ℕ) :
    (organizeNotesByColumn hos k)[i]? =
      if i < k then some (hos.filter (fun o => effColumn o == (i : ℤ))) else none := by
  unfold organizeNotesByColumn
  rw [organize_foldl_getElem k hos (List.replicate k [])
    (List.length_replicate k []) i, List.getElem?_replicate]
  by_cases h : i < k
  · simp [h]
  · simp [h]

/-- C7 (amended): `organizeNotesByColumn` returns exactly `keyCount`
sequences; sequence `i` holds, in their original relative order, exactly
the input objects whose column — defaulting to 0 when the field is unset
— equals `i`; and every object whose (defaulted) column is negative or
`≥ keyCount` appears in no output sequence (dropped, not clamped). -/
theorem organize_buckets :
    ∀ (hos : List HitObject) (k : ℕ),
      (organizeNotesByColumn hos k).length = k ∧
      (∀ i : ℕ, i < k →
        (organizeNotesByColumn hos k)[i]? =
          some (hos.filter (fun o => effColumn o == (i : ℤ)))) ∧
      (∀ o ∈ hos, (effColumn o < 0 ∨ (k : ℤ) ≤ effColumn o) →
        ∀ b ∈ organizeNotesByColumn hos k, o ∉ b) := by
  intro hos k
  refine ⟨organize_length hos k, ?_, ?_⟩
  · intro i hik
    rw [organize_getElem, if_pos hik]
  · intro o _ hrange b hb hob
    obtain ⟨i, hi, hbi⟩ := List.mem_iff_getElem.mp hb
    rw [organize_length] at hi
    have : (organizeNotesByColumn hos k)[i]? = some b := by
      rw [List.getElem?_eq_getElem (by rw [organize_length]; exact hi), hbi]
    rw [organize_getElem, if_pos hi] at this
    have hbf := Option.some.inj this
    subst hbf
    have := (List.mem_filter.mp hob).2
    rw [beq_iff_eq] at this
    rcases hrange with h0 | hk
    · exact absurd (this ▸ h0) (by simp [Int.natCast_nonneg, not_lt])
    · rw [this] at hk
      exact absurd hi (by exact_mod_cast not_lt.mpr hk)

/-- C7 (counterexample to the claim as stated): a single object whose
`column` field is unset is placed into output sequence 0 by
`organizeNotesByColumn`, although its column does not equal 0 (it is
absent); so sequence 0 does not contain "exactly the input objects whose
column equals 0". -/
theorem organize_buckets_cex :
    objNoCol ∈ (organizeNotesByColumn [objNoCol] 1).getD 0 [] ∧
      objNoCol.column ≠ some 0 := by decide

/-- Witness for C7 applied at a concrete input and bucket. -/
theorem organize_buckets_witness :
    (organizeNotesByColumn [objNoCol] 4)[2]? = some [] :=
  (organize_buckets [objNoCol] 4).2.1 2 (by decide)

/-- C10: `organizeNotesByColumn` treats an absent `column` as 0: for any
key count `k ≥ 1`, an input object without a column ends up in output
sequence 0 (instead of being dropped). -/
theorem missing_column_goes_to_bucket_zero :
    ∀ (hos : List HitObject) (k : ℕ) (o : HitObject),
      1 ≤ k → o ∈ hos → o.column = none →
        o ∈ (organizeNotesByColumn hos k).getD 0 [] := by
  intro hos k o hk ho hcol
  have hk0 : 0 < k := hk
  rw [List.getD_eq_getElem?_getD, organize_getElem, if_pos hk0, Option.getD_some,
    List.mem_filter]
  refine ⟨ho, ?_⟩
  simp [effColumn, hcol]

/-- Witness for C10 at a concrete object and key count. -/
theorem missing_column_goes_to_bucket_zero_witness :
    objNoCol ∈ (organizeNotesByColumn [objNoCol, objNoCol] 2).getD 0 [] :=
  missing_column_goes_to_bucket_zero [objNoCol, objNoCol] 2 objNoCol
    (by decide) (by decide) (by decide)

/-! ### The derived fields of a parsed hit-object line -/

/-- Inversion of a successful hit-object line parse: the derived fields
are exactly the ones computed in the loop body of `parseHitObjects`. -/
theorem parseHitObjectLine_shape (k : ℚ) (line : List Char) (obj : HitObject)
    (h : parseHitObjectLine k line = some obj) :
    obj.column = some (columnOf obj.x k) ∧
    obj.isLongNote = some (Nat.land obj.type 128 != 0) ∧
    obj.endTime = some
      (match (if Nat.land obj.type 128 != 0 then obj.objectParams.bind decodeEnd
              else none) with
       | some v => if v = 0 then obj.time else v
       | none => obj.time) := by
  unfold parseHitObjectLine at h
  repeat' split at h
  all_goals try exact Option.noConfusion h
  all_goals (obtain rfl := (Option.some.inj h).symm)
  all_goals simp_all

theorem columnOf_eq_floor (x : ℕ) (k : ℚ) :
    columnOf x k = ⌊((x : ℚ) * k) / 512⌋ := by
  have hq : ((x : ℚ) * k) / 512 =
      ((((x : ℤ) * k.num : ℤ) : ℚ)) / (((512 * k.den : ℕ) : ℚ)) := by
    have h512 : ((512 : ℚ)) ≠ 0 := by norm_num
    have hd : (((512 * k.den : ℕ) : ℚ)) ≠ 0 :=
      Nat.cast_ne_zero.mpr (Nat.mul_ne_zero (by norm_num) k.den_nz)
    rw [div_eq_div_iff h512 hd]
    push_cast
    calc (↑x * k) * ((512 : ℚ) * (k.den : ℚ)) = ↑x * (k * ↑k.den) * 512 := by ring
      _ = ↑x * ↑k.num * 512 := by rw [Rat.mul_den_eq_num]
  rw [columnOf, hq, Rat.floor_intCast_div_natCast,
    Int.fdiv_eq_ediv _ (by positivity)]
  norm_cast

theorem floor_natCast_mul_div (x k : ℕ) :
    ⌊((x : ℚ) * (k : ℚ)) / 512⌋ = ((x * k) / 512 : ℕ) := by
  have h1 : ((x : ℚ) * k) / 512 = ((((x * k : ℕ) : ℤ) : ℚ)) / (((512 : ℕ) : ℚ)) := by
    push_cast
    ring
  rw [h1, Rat.floor_intCast_div_natCast]
  omega

/-- C4: for every parsed hit object, `column = ⌊x·keyCount/512⌋` with
floor-division semantics (for a natural key count this is exactly
natural division); `x = 0` always gives column 0; `x = 511` with key
count 4 gives column 3; and the result can fall outside `[0, keyCount)`
for out-of-range `x` (here `x = 1024` with key count 4 gives column 8,
which is not `< 4`). -/
theorem column_is_floor_div :
    (∀ (k : ℚ) (line : List Char) (obj : HitObject),
        parseHitObjectLine k line = some obj →
          obj.column = some ⌊((obj.x : ℚ) * k) / 512⌋ ∧
          (obj.x = 0 → obj.column = some 0)) ∧
    (∀ (k : ℕ) (line : List Char) (obj : HitObject),
        parseHitObjectLine (k : ℚ) line = some obj →
          obj.column = some (((obj.x * k) / 512 : ℕ) : ℤ)) ∧
    ((parseHitObjectLine 4 ((r"511,64,12,1,0").data)).map (fun o => o.column) =
      some (some 3)) ∧
    ((parseHitObjectLine 4 ((r"1024,64,12,1,0").data)).map (fun o => o.column) =
      some (some 8) ∧ ¬ (8 : ℤ) < 4) := by
  have base : ∀ (k : ℚ) (line : List Char) (obj : HitObject),
      parseHitObjectLine k line = some obj →
        obj.column = some ⌊((obj.x : ℚ) * k) / 512⌋ := by
    intro k line obj h
    rw [(parseHitObjectLine_shape k line obj h).1, columnOf_eq_floor]
  refine ⟨fun k line obj h => ⟨base k line obj h, fun hx => ?_⟩,
    fun k line obj h => ?_, by decide, by decide, by decide⟩
  · rw [base k line obj h, hx]
    norm_num
  · rw [base (k : ℚ) line obj h, floor_natCast_mul_div]

/-- Witness for C4 at the concrete line `256,0,5,1,0` with key count 4. -/
theorem column_is_floor_div_witness :
    noteA.column = some ⌊((noteA.x : ℚ) * 4) / 512⌋ :=
  (column_is_floor_div.1 4 ((r"256,0,5,1,0").data) noteA (by rfl)).1

/-- C2 (amended): `isLongNote` is true iff bit 128 of `type` is set.
When the note is a long note and the 6th field is present, the field's
text is searched (the regex is unanchored) for the leftmost substring of
shape `digits:digits:digits:digits:` followed by a non-line-terminator
character; if such a match exists and its decoded first integer is
nonzero, `endTime` is that integer; in every other case — no HOLD bit,
6th field absent, no sub-pattern match, or a decoded value of 0 —
`endTime` equals `time`, regardless of trailing fields. -/
theorem long_note_flag_and_end_time :
    (∀ (k : ℚ) (line : List Char) (obj : HitObject),
        parseHitObjectLine k line = some obj →
          (obj.isLongNote = some true ↔ Nat.land obj.type 128 ≠ 0) ∧
          (Nat.land obj.type 128 = 0 → obj.endTime = some obj.time) ∧
          (obj.objectParams = none → obj.endTime = some obj.time) ∧
          (∀ p, obj.objectParams = some p → decodeEnd p = none →
            obj.endTime = some obj.time) ∧
          (∀ p v, obj.objectParams = some p → Nat.land obj.type 128 ≠ 0 →
            decodeEnd p = some v → v ≠ 0 → obj.endTime = some v) ∧
          (∀ p, obj.objectParams = some p → Nat.land obj.type 128 ≠ 0 →
            decodeEnd p = some 0 → obj.endTime = some obj.time)) ∧
    ((parseHitObjectLine 4 ((r"448,192,1000,128,0,5000:0:0:0:L1:1").data)).map
        (fun o => (o.isLongNote, o.endTime)) = some (some true, some 5000)) ∧
    ((parseHitObjectLine 4 ((r"448,192,1000,1,0,junk,trail,ing").data)).map
        (fun o => (o.isLongNote, o.endTime)) = some (some false, some 1000)) := by
  refine ⟨?_, by decide, by decide⟩
  intro k line obj h
  obtain ⟨-, hln, het⟩ := parseHitObjectLine_shape k line obj h
  refine ⟨?_, ?_, ?_, ?_, ?_, ?_⟩
  · simp only [hln, Option.some_inj, bne_iff_ne]
  · intro h0
    rw [het]
    simp [h0]
  · intro hop
    rw [het]
    simp [hop]
  · intro p hp hd
    rw [het]
    simp [hp, hd]
  · intro p v hp hl hd hv
    have hb : (Nat.land obj.type 128 != 0) = true := bne_iff_ne.mpr hl
    rw [het]
    simp [hb, hp, hd, hv]
  · intro p hp hl hd
    have hb : (Nat.land obj.type 128 != 0) = true := bne_iff_ne.mpr hl
    rw [het]
    simp [hb, hp, hd]

/-- C2 (counterexample to the claim as stated): for the line
`0,0,100,128,0,0:0:0:0:x` the 6th field matches the colon sub-record
pattern with decoded integer first component 0, so the claim requires
`endTime = 0`; but `!obj.endTime` treats the decoded 0 as absent and the
parser yields `endTime = 100` (= `time`). -/
theorem long_note_flag_and_end_time_cex :
    (parseHitObjectLine 4 ((r"0,0,100,128,0,0:0:0:0:x").data)).map
        (fun o => (o.isLongNote, o.objectParams, o.endTime)) =
      some (some true, some ((r"0:0:0:0:x").data), some 100) ∧
    decodeEnd ((r"0:0:0:0:x").data) = some 0 ∧ (100 : ℕ) ≠ 0 := by decide

/-- Witness for C2 at the concrete hold-note line. -/
theorem long_note_flag_and_end_time_witness :
    noteHold.isLongNote = some true ↔ Nat.land noteHold.type 128 ≠ 0 :=
  (long_note_flag_and_end_time.1 4
    ((r"448,192,1000,128,0,5000:0:0:0:L1:1").data) noteHold (by rfl)).1

/-- C3 (amended): `endTime = time` whenever no release time is decodable
(no HOLD bit, absent 6th field, or unmatched sub-pattern); when a
release time `v` is decodable on a long note, `endTime` is `v` when
`v ≠ 0` and falls back to `time` when `v = 0` — the parser never
compares the decoded value against `time`, so `endTime < time` is
possible. -/
theorem end_time_fallback :
    ∀ (k : ℚ) (line : List Char) (obj : HitObject),
      parseHitObjectLine k line = some obj →
        ((Nat.land obj.type 128 = 0 ∨ obj.objectParams.bind decodeEnd = none) →
          obj.endTime = some obj.time) ∧
        (∀ v, Nat.land obj.type 128 ≠ 0 → obj.objectParams.bind decodeEnd = some v →
          obj.endTime = some (if v = 0 then obj.time else v)) := by
  intro k line obj h
  obtain ⟨-, -, het⟩ := parseHitObjectLine_shape k line obj h
  constructor
  · rintro (h0 | hnone)
    · rw [het]
      simp [h0]
    · rw [het]
      simp [hnone]
  · intro v hl hd
    have hb : (Nat.land obj.type 128 != 0) = true := bne_iff_ne.mpr hl
    rw [het]
    simp [hb, hd]

/-- C3 (counterexample to the claim as stated): for the line
`0,0,5000,128,0,100:0:0:0:x` a release time (100) is decodable from the
6th field, yet the resulting object has `endTime = 100 < time = 5000`,
refuting `endTime ≥ time` for decodable release times. -/
theorem end_time_fallback_cex :
    (parseHitObjectLine 4 ((r"0,0,5000,128,0,100:0:0:0:x").data)).map
        (fun o => (o.time, o.endTime)) = some (5000, some 100) ∧
    decodeEnd ((r"100:0:0:0:x").data) = some 100 ∧ (100 : ℕ) < 5000 := by decide

/-- Witness for C3 at the concrete line `256,0,5,1,0`. -/
theorem end_time_fallback_witness :
    noteA.endTime = some noteA.time :=
  (end_time_fallback 4 ((r"256,0,5,1,0").data) noteA (by rfl)).1
    (Or.inl (by decide))

/-! ### Section-absence behaviour -/

theorem splitPart1CI_none (pat text : List Char) (h : findCI pat text = none) :
    splitPart1CI pat text = none := by
  unfold splitPart1CI
  rw [h]

theorem sectionBody_none (header text : List Char) (h : findCI header text = none) :
    sectionBody header text = none := by
  unfold sectionBody
  rw [h]

theorem parseOsuFile_error_iff (content : List Char) :
    parseOsuFile content = Except.error missingHitObjectsMsg ↔
      (splitPart1CI hitObjectsHeader content = none ∨
        splitPart1CI hitObjectsHeader content = some []) := by
  unfold parseOsuFile parseHitObjects
  cases hs : splitPart1CI hitObjectsHeader content with
  | none => simp
  | some sec =>
    by_cases he : sec.isEmpty
    · have h0 : sec = [] := List.isEmpty_iff.mp he
      subst h0
      simp
    · have hne : sec ≠ [] := by
        intro h0
        exact he (by simp [h0])
      simp [he, hne]

/-- C1 (amended): `parseOsuFile` signals the fatal missing-section error
— the `Error` whose message names `[HitObjects]` — precisely when the
input has no case-insensitive `[HitObjects]` header *or* the text
between the first header and the next occurrence (or the end of input)
is empty, the empty split part being falsy in `if (!hitObjectSection)`.
When `[TimingPoints]` is absent the timing-point sequence is empty with
no error, and when `[Metadata]`, `[General]` or `[Difficulty]` are
absent the corresponding metadata fields are unset with no error
(metadata and timing extraction are total functions of the input). -/
theorem missing_sections :
    ∀ content : List Char,
      (parseOsuFile content = Except.error missingHitObjectsMsg ↔
        (splitPart1CI hitObjectsHeader content = none ∨
          splitPart1CI hitObjectsHeader content = some [])) ∧
      (findCI hitObjectsHeader content = none →
        parseOsuFile content = Except.error missingHitObjectsMsg) ∧
      (findCI timingPointsHeader content = none → parseTimingPoints content = []) ∧
      (findCI metadataHeader content = none →
        (parseMetadata content).title = none ∧ (parseMetadata content).artist = none ∧
        (parseMetadata content).creator = none ∧ (parseMetadata content).version = none) ∧
      (findCI generalHeader content = none →
        (parseMetadata content).audioFilename = none ∧
        (parseMetadata content).mode = none) ∧
      (findCI difficultyHeader content = none →
        (parseMetadata content).circleSize = none) := by
  intro content
  refine ⟨parseOsuFile_error_iff content, ?_, ?_, ?_, ?_, ?_⟩
  · intro h
    exact (parseOsuFile_error_iff content).mpr (Or.inl (splitPart1CI_none _ _ h))
  · intro h
    unfold parseTimingPoints
    rw [splitPart1CI_none _ _ h]
  · intro h
    unfold parseMetadata
    rw [sectionBody_none _ _ h]
    exact ⟨rfl, rfl, rfl, rfl⟩
  · intro h
    unfold parseMetadata
    rw [sectionBody_none _ _ h]
    exact ⟨rfl, rfl⟩
  · intro h
    unfold parseMetadata
    rw [sectionBody_none _ _ h]
    rfl

/-- C1 (counterexample to the claim as stated): the input consisting of
exactly the `[HitObjects]` header does contain a case-insensitive
`[HitObjects]` header, yet `split(/\[HitObjects\]/i)[1]` is the empty
string, which is falsy, so the parser still raises the fatal
missing-section error. -/
theorem missing_sections_cex :
    findCI hitObjectsHeader ((r"[HitObjects]").data) = some 0 ∧
    parseOsuFile ((r"[HitObjects]").data) = Except.error missingHitObjectsMsg :=
  ⟨by decide, by rfl⟩

/-- Witness for C1 at a concrete header-free input. -/
theorem missing_sections_witness :
    parseTimingPoints ((r"x").data) = [] ∧
      (parseMetadata ((r"x").data)).title = none :=
  ⟨(missing_sections ((r"x").data)).2.2.1 (by decide),
    ((missing_sections ((r"x").data)).2.2.2.1 (by decide)).1⟩

/-! ### The aggregator -/

theorem le_foldl_max : ∀ (l : List ℕ) (acc : ℕ), acc ≤ l.foldl max acc
  | [], acc => le_refl acc
  | x :: t, acc => le_trans (le_max_left acc x) (le_foldl_max t (max acc x))

theorem mem_le_foldl_max : ∀ (l : List ℕ) (acc x : ℕ), x ∈ l → x ≤ l.foldl max acc
  | [], _, _, hx => absurd hx (List.not_mem_nil _)
  | y :: t, acc, x, hx => by
    rcases List.mem_cons.mp hx with rfl | hxt
    · exact le_trans (le_max_right acc x) (le_foldl_max t (max acc x))
    · exact mem_le_foldl_max t (max acc y) x hxt

theorem foldl_max_mem : ∀ (l : List ℕ) (acc : ℕ),
    l.foldl max acc = acc ∨ l.foldl max acc ∈ l
  | [], _ => Or.inl rfl
  | y :: t, acc => by
    rcases foldl_max_mem t (max acc y) with h | h
    · rcases max_choice acc y with h2 | h2
      · left
        rw [List.foldl_cons, h, h2]
      · right
        rw [List.foldl_cons, h, h2]
        exact List.mem_cons_self y t
    · right
      exact List.mem_cons_of_mem y h

theorem parsed_endTime_durationVal (k : ℚ) (line : List Char) (obj : HitObject)
    (h : parseHitObjectLine k line = some obj) :
    ∃ e, obj.endTime = some e ∧ durationVal obj = e := by
  obtain ⟨-, -, het⟩ := parseHitObjectLine_shape k line obj h
  refine ⟨_, het, ?_⟩
  rw [durationVal, het]
  cases hcase : (if (Nat.land obj.type 128 != 0) then obj.objectParams.bind decodeEnd
      else none) with
  | none => simp
  | some v =>
    by_cases hv : v = 0
    · simp [hv]
    · simp [hv]

theorem parseOsuFile_ok (content : List Char) (m : ParsedMap)
    (h : parseOsuFile content = Except.ok m) :
    parseHitObjects content (orFour (parseMetadata content).circleSize) =
        Except.ok m.hitObjects ∧
    m.metadata = parseMetadata content ∧
    m.noteCount = m.hitObjects.length ∧
    m.longNoteCount = (m.hitObjects.filter (fun o => o.isLongNote == some true)).length ∧
    m.duration = (if m.hitObjects.length > 0
        then (m.hitObjects.map durationVal).foldl max 0 else 0) ∧
    m.keyCount = orFour (parseMetadata content).circleSize := by
  unfold parseOsuFile at h
  dsimp only at h
  split at h
  · exact absurd h (by simp)
  · rename_i l hl
    obtain rfl := (Except.ok.inj h).symm
    exact ⟨hl, rfl, rfl, rfl, rfl, rfl⟩

theorem parseHitObjects_mem (content : List Char) (k : ℚ) (o : HitObject)
    (l : List HitObject) (h : parseHitObjects content k = Except.ok l) (ho : o ∈ l) :
    ∃ line, parseHitObjectLine k line = some o := by
  unfold parseHitObjects at h
  split at h
  · exact absurd h (by simp)
  · split at h
    · exact absurd h (by simp)
    · obtain rfl := (Except.ok.inj h).symm
      rw [mem_sortBy] at ho
      obtain ⟨line, -, hline⟩ := List.mem_filterMap.mp ho
      exact ⟨line, hline⟩

/-- C5: for every successful `parseOsuFile` run, `noteCount` is the
number of parsed hit objects, `longNoteCount` counts the hit objects
with a true `isLongNote`, `duration` is 0 for an empty hit-object list
and otherwise the maximum `endTime` over all hit objects, and the
returned `keyCount` — `metadata.circleSize` when present and non-falsy,
else 4 — is the very key count that drives column derivation (re-running
the hit-object extractor with it reproduces `hitObjects`). -/
theorem aggregate_stats :
    ∀ (content : List Char) (m : ParsedMap),
      parseOsuFile content = Except.ok m →
        m.noteCount = m.hitObjects.length ∧
        m.longNoteCount =
          (m.hitObjects.filter (fun o => o.isLongNote == some true)).length ∧
        (m.hitObjects = [] → m.duration = 0) ∧
        (m.hitObjects ≠ [] →
          (∃ o ∈ m.hitObjects, o.endTime = some m.duration) ∧
          (∀ o ∈ m.hitObjects, ∀ e, o.endTime = some e → e ≤ m.duration)) ∧
        m.keyCount = orFour m.metadata.circleSize ∧
        parseHitObjects content m.keyCount = Except.ok m.hitObjects := by
  intro content m h
  obtain ⟨hparse, hmeta, hnote, hlong, hdur, hkey⟩ := parseOsuFile_ok content m h
  have hparse' : parseHitObjects content m.keyCount = Except.ok m.hitObjects := by
    rw [hkey]
    exact hparse
  have hval : ∀ o ∈ m.hitObjects, ∃ e, o.endTime = some e ∧ durationVal o = e := by
    intro o ho
    obtain ⟨line, hline⟩ := parseHitObjects_mem content m.keyCount o m.hitObjects hparse' ho
    exact parsed_endTime_durationVal m.keyCount line o hline
  refine ⟨hnote, hlong, ?_, ?_, by rw [hkey, hmeta], hparse'⟩
  · intro hempty
    rw [hdur, hempty]
    simp
  · intro hne
    have hlen : m.hitObjects.length > 0 := List.length_pos.mpr hne
    have hd : m.duration = (m.hitObjects.map durationVal).foldl max 0 := by
      rw [hdur, if_pos hlen]
    constructor
    · have hex : ∃ o ∈ m.hitObjects, durationVal o = m.duration := by
        rcases foldl_max_mem (m.hitObjects.map durationVal) 0 with h0 | hmem
        · obtain ⟨o, ho⟩ := List.exists_mem_of_ne_nil m.hitObjects hne
          refine ⟨o, ho, ?_⟩
          have hle : durationVal o ≤ m.duration := by
            rw [hd]
            exact mem_le_foldl_max _ 0 _ (List.mem_map_of_mem durationVal ho)
          rw [hd, h0] at hle ⊢
          exact Nat.le_zero.mp hle
        · rw [← hd] at hmem
          obtain ⟨o, ho, hoval⟩ := List.mem_map.mp hmem
          exact ⟨o, ho, hoval⟩
      obtain ⟨o, ho, hoval⟩ := hex
      obtain ⟨e, he, hde⟩ := hval o ho
      exact ⟨o, ho, by rw [he, ← hde, hoval]⟩
    · intro o ho e he
      obtain ⟨e', he', hde'⟩ := hval o ho
      have : e = e' := by
        rw [he] at he'
        exact Option.some.inj he'
      rw [this, ← hde', hd]
      exact mem_le_foldl_max _ 0 _ (List.mem_map_of_mem durationVal ho)

/-- Witness for C5 at a concrete one-note input. -/
theorem aggregate_stats_witness :
    mapA.noteCount = mapA.hitObjects.length ∧
      mapA.keyCount = orFour mapA.metadata.circleSize :=
  ⟨(aggregate_stats ((r"[HitObjects]").data ++ '\n' :: (r"0,0,100,1,0").data) mapA
      (by rfl)).1,
   (aggregate_stats ((r"[HitObjects]").data ++ '\n' :: (r"0,0,100,1,0").data) mapA
      (by rfl)).2.2.2.2.1⟩

/-! ### Metadata extraction -/

theorem scanCI_some {α : Type} (key : List Char) (f : List Char → Option α) :
    ∀ (l : List Char) (v : α), scanCI key f l = some v → ∃ r, f r = some v
  | [], v, h => by simp [scanCI] at h
  | c :: t, v, h => by
    unfold scanCI at h
    split at h
    · split at h
      · rename_i hr
        exact ⟨_, hr.trans h⟩
      · exact scanCI_some key f t v h
    · exact scanCI_some key f t v h

theorem scanCI_none {α : Type} (key : List Char) (f : List Char → Option α) :
    ∀ l : List Char, findCI key l = none → scanCI key f l = none
  | [], _ => by
    unfold scanCI
    rfl
  | c :: t, h => by
    unfold findCI at h
    by_cases hp : isPrefixCI key (c :: t)
    · rw [if_pos hp] at h
      exact Option.noConfusion h
    · rw [if_neg hp] at h
      have ht : findCI key t = none := by
        cases hft : findCI key t with
        | none => rfl
        | some j =>
          rw [hft] at h
          simp at h
      unfold scanCI
      rw [if_neg hp]
      exact scanCI_none key f t ht

theorem strValueAt_trimmed (r v : List Char) (h : strValueAt r = some v) :
    ∃ w, v = trimJS w := by
  unfold strValueAt at h
  dsimp only at h
  split at h
  · split at h
    · exact ⟨[], (Option.some_inj.mp h).symm⟩
    · exact Option.noConfusion h
  · exact ⟨_, (Option.some_inj.mp h).symm⟩

theorem bind_scan_none {α : Type} (key : List Char) (f : List Char → Option α)
    (sect : Option (List Char)) (body : List Char) (hs : sect = some body)
    (hk : findCI key body = none) : sect.bind (scanCI key f) = none := by
  rw [hs]
  exact scanCI_none key f body hk

theorem bind_scan_trimmed (key : List Char) (sect : Option (List Char)) (v : List Char)
    (h : sect.bind (scanCI key strValueAt) = some v) : ∃ w, v = trimJS w := by
  obtain ⟨body, -, hscan⟩ := Option.bind_eq_some.mp h
  obtain ⟨r, hr⟩ := scanCI_some key strValueAt body v hscan
  exact strValueAt_trimmed r v hr

theorem parseMetadata_title (content : List Char) :
    (parseMetadata content).title =
      (sectionBody metadataHeader content).bind (scanCI ((r"Title:").data) strValueAt) := rfl

theorem parseMetadata_artist (content : List Char) :
    (parseMetadata content).artist =
      (sectionBody metadataHeader content).bind (scanCI ((r"Artist:").data) strValueAt) := rfl

theorem parseMetadata_creator (content : List Char) :
    (parseMetadata content).creator =
      (sectionBody metadataHeader content).bind (scanCI ((r"Creator:").data) strValueAt) := rfl

theorem parseMetadata_version (content : List Char) :
    (parseMetadata content).version =
      (sectionBody metadataHeader content).bind (scanCI ((r"Version:").data) strValueAt) := rfl

theorem parseMetadata_audio (content : List Char) :
    (parseMetadata content).audioFilename =
      (sectionBody generalHeader content).bind
        (scanCI ((r"AudioFilename:").data) strValueAt) := rfl

theorem parseMetadata_mode (content : List Char) :
    (parseMetadata content).mode =
      (sectionBody generalHeader content).bind (scanCI ((r"Mode:").data) natValueAt) := rfl

theorem parseMetadata_cs (content : List Char) :
    (parseMetadata content).circleSize =
      ((sectionBody difficultyHeader content).bind
        (scanCI ((r"CircleSize:").data) floatCapAt)).bind parseFloatPre := rfl

/-- C9 (amended): metadata extraction is a total function of the input
(never an error): an absent section leaves all its fields unset; within
a found section each field is extracted independently — it depends only
on its own section body, and a missing key (no case-insensitive
occurrence of `Key:` in the body, malformed values included) leaves only
that field unset; every extracted string value is a trimmed string.  The
key match is a case-insensitive *substring* match over the section body
(the spec's "prefix match on any line" does not hold, see the
counterexample). -/
theorem metadata_extraction :
    ∀ content : List Char,
      ((findCI metadataHeader content = none →
          (parseMetadata content).title = none ∧
          (parseMetadata content).artist = none ∧
          (parseMetadata content).creator = none ∧
          (parseMetadata content).version = none) ∧
        (findCI generalHeader content = none →
          (parseMetadata content).audioFilename = none ∧
          (parseMetadata content).mode = none) ∧
        (findCI difficultyHeader content = none →
          (parseMetadata content).circleSize = none)) ∧
      (∀ body, sectionBody metadataHeader content = some body →
        (findCI ((r"Title:").data) body = none → (parseMetadata content).title = none) ∧
        (findCI ((r"Artist:").data) body = none → (parseMetadata content).artist = none) ∧
        (findCI ((r"Creator:").data) body = none → (parseMetadata content).creator = none) ∧
        (findCI ((r"Version:").data) body = none → (parseMetadata content).version = none)) ∧
      (∀ body, sectionBody generalHeader content = some body →
        (findCI ((r"AudioFilename:").data) body = none →
          (parseMetadata content).audioFilename = none) ∧
        (findCI ((r"Mode:").data) body = none → (parseMetadata content).mode = none)) ∧
      (∀ body, sectionBody difficultyHeader content = some body →
        findCI ((r"CircleSize:").data) body = none →
          (parseMetadata content).circleSize = none) ∧
      ((∀ v, (parseMetadata content).title = some v → ∃ w, v = trimJS w) ∧
        (∀ v, (parseMetadata content).artist = some v → ∃ w, v = trimJS w) ∧
        (∀ v, (parseMetadata content).creator = some v → ∃ w, v = trimJS w) ∧
        (∀ v, (parseMetadata content).version = some v → ∃ w, v = trimJS w) ∧
        (∀ v, (parseMetadata content).audioFilename = some v → ∃ w, v = trimJS w)) ∧
      (∀ c₂ : List Char,
        (sectionBody metadataHeader content = sectionBody metadataHeader c₂ →
          (parseMetadata content).title = (parseMetadata c₂).title ∧
          (parseMetadata content).artist = (parseMetadata c₂).artist ∧
          (parseMetadata content).creator = (parseMetadata c₂).creator ∧
          (parseMetadata content).version = (parseMetadata c₂).version) ∧
        (sectionBody generalHeader content = sectionBody generalHeader c₂ →
          (parseMetadata content).audioFilename = (parseMetadata c₂).audioFilename ∧
          (parseMetadata content).mode = (parseMetadata c₂).mode) ∧
        (sectionBody difficultyHeader content = sectionBody difficultyHeader c₂ →
          (parseMetadata content).circleSize = (parseMetadata c₂).circleSize)) := by
  intro content
  refine ⟨⟨?_, ?_, ?_⟩, ?_, ?_, ?_, ⟨?_, ?_, ?_, ?_, ?_⟩, ?_⟩
  · intro h
    rw [parseMetadata_title, parseMetadata_artist, parseMetadata_creator,
      parseMetadata_version, sectionBody_none _ _ h]
    exact ⟨rfl, rfl, rfl, rfl⟩
  · intro h
    rw [parseMetadata_audio, parseMetadata_mode, sectionBody_none _ _ h]
    exact ⟨rfl, rfl⟩
  · intro h
    rw [parseMetadata_cs, sectionBody_none _ _ h]
    rfl
  · intro body hbody
    refine ⟨fun hk => ?_, fun hk => ?_, fun hk => ?_, fun hk => ?_⟩
    · rw [parseMetadata_title]
      exact bind_scan_none _ _ _ _ hbody hk
    · rw [parseMetadata_artist]
      exact bind_scan_none _ _ _ _ hbody hk
    · rw [parseMetadata_creator]
      exact bind_scan_none _ _ _ _ hbody hk
    · rw [parseMetadata_version]
      exact bind_scan_none _ _ _ _ hbody hk
  · intro body hbody
    refine ⟨fun hk => ?_, fun hk => ?_⟩
    · rw [parseMetadata_audio]
      exact bind_scan_none _ _ _ _ hbody hk
    · rw [parseMetadata_mode]
      exact bind_scan_none _ _ _ _ hbody hk
  · intro body hbody hk
    rw [parseMetadata_cs, bind_scan_none _ _ _ _ hbody hk]
    rfl
  · intro v hv
    rw [parseMetadata_title] at hv
    exact bind_scan_trimmed _ _ _ hv
  · intro v hv
    rw [parseMetadata_artist] at hv
    exact bind_scan_trimmed _ _ _ hv
  · intro v hv
    rw [parseMetadata_creator] at hv
    exact bind_scan_trimmed _ _ _ hv
  · intro v hv
    rw [parseMetadata_version] at hv
    exact bind_scan_trimmed _ _ _ hv
  · intro v hv
    rw [parseMetadata_audio] at hv
    exact bind_scan_trimmed _ _ _ hv
  · intro c₂
    refine ⟨fun hbe => ?_, fun hbe => ?_, fun hbe => ?_⟩
    · rw [parseMetadata_title, parseMetadata_title, parseMetadata_artist,
        parseMetadata_artist, parseMetadata_creator, parseMetadata_creator,
        parseMetadata_version, parseMetadata_version, hbe]
      exact ⟨rfl, rfl, rfl, rfl⟩
    · rw [parseMetadata_audio, parseMetadata_audio, parseMetadata_mode,
        parseMetadata_mode, hbe]
      exact ⟨rfl, rfl⟩
    · rw [parseMetadata_cs, parseMetadata_cs, hbe]

/-- C9 (counterexample to the claim as stated): for the input
`[Metadata]` + `Subtitle:Hello`, no line of the section body starts
case-insensitively with `Title:` and the specified per-line prefix
extraction (`prefixFieldSpec`) leaves the title unset — yet the
implementation extracts `title = "Hello"`, because `/Title:/i` matches
inside the word `Subtitle:`. -/
theorem metadata_extraction_cex :
    (parseMetadata metaCex).title = some ((r"Hello").data) ∧
    (sectionBody metadataHeader metaCex).map
        (fun b => (splitLines b).all (fun ln => !isPrefixCI ((r"Title:").data) ln)) =
      some true ∧
    (sectionBody metadataHeader metaCex).bind (prefixFieldSpec ((r"Title:").data)) =
      none := by decide

/-- Witness for C9 at a concrete section-free input. -/
theorem metadata_extraction_witness :
    (parseMetadata ((r"zzz").data)).audioFilename = none ∧
      (parseMetadata ((r"zzz").data)).mode = none :=
  (metadata_extraction ((r"zzz").data)).1.2.1 (by decide)

/-! ### Round-tripping a timing point through its canonical comma form -/

theorem digitChar_isDigit {d : ℕ} (hd : d < 10) : (digitChar d).isDigit = true := by
  interval_cases d <;> decide

theorem digitChar_val {d : ℕ} (hd : d < 10) : (digitChar d).toNat - 48 = d := by
  interval_cases d <;> decide

theorem natDigits_all_digit (n : ℕ) : ∀ c ∈ natDigits n, c.isDigit = true := by
  intro c hc
  rw [natDigits, List.mem_reverse, List.mem_map] at hc
  obtain ⟨d, hd, rfl⟩ := hc
  exact digitChar_isDigit (Nat.digits_lt_base (by norm_num) hd)

theorem foldr_digits_val : ∀ D : List ℕ, (∀ d ∈ D, d < 10) →
    D.foldr (fun d a => 10 * a + ((digitChar d).toNat - 48)) 0 = Nat.ofDigits 10 D
  | [], _ => by simp [Nat.ofDigits]
  | d :: D, h => by
    rw [List.foldr_cons, foldr_digits_val D (fun x hx => h x (List.mem_cons_of_mem d hx)),
      Nat.ofDigits_cons, digitChar_val (h d (List.mem_cons_self d D))]
    ring

theorem digitsVal_natDigits (n : ℕ) : digitsVal (natDigits n) = n := by
  rw [digitsVal, natDigits, List.foldl_reverse, List.foldr_map,
    foldr_digits_val (Nat.digits 10 n) (fun d hd => Nat.digits_lt_base (by norm_num) hd),
    Nat.ofDigits_digits]

theorem fmtNat_all_digit (n : ℕ) : ∀ c ∈ fmtNat n, c.isDigit = true := by
  intro c hc
  rw [fmtNat] at hc
  split at hc
  · rw [List.mem_singleton] at hc
    subst hc
    decide
  · exact natDigits_all_digit n c hc

theorem digitsVal_fmtNat (n : ℕ) : digitsVal (fmtNat n) = n := by
  rw [fmtNat]
  split
  · rename_i h
    rw [h]
    rfl
  · exact digitsVal_natDigits n

theorem fmtNat_ne_nil (n : ℕ) : fmtNat n ≠ [] := by
  rw [fmtNat]
  split
  · simp
  · rename_i h
    rw [natDigits]
    simp [Nat.digits_ne_nil_iff_ne_zero.mpr h]

theorem digits_len_le_of_lt_pow {m k : ℕ} (h : m < 10 ^ k) :
    (Nat.digits 10 m).length ≤ k := by
  by_cases hm : m = 0
  · simp [hm]
  · by_contra hlen
    push_neg at hlen
    have h1 : 10 ^ (Nat.digits 10 m).length ≤ 10 * m :=
      Nat.base_pow_length_digits_le 10 m (by norm_num) hm
    have h2 : 10 ^ (k + 1) ≤ 10 ^ (Nat.digits 10 m).length :=
      Nat.pow_le_pow_right (by norm_num) hlen
    have h3 : 10 ^ k * 10 ≤ 10 * m := by
      rw [← pow_succ]
      exact le_trans h2 h1
    omega

theorem fracDigits_length {k m : ℕ} (h : m < 10 ^ k) : (fracDigits k m).length = k := by
  rw [fracDigits, List.length_append, List.length_replicate, natDigits,
    List.length_reverse, List.length_map]
  have := digits_len_le_of_lt_pow h
  omega

theorem fracDigits_all_digit (k m : ℕ) : ∀ c ∈ fracDigits k m, c.isDigit = true := by
  intro c hc
  rw [fracDigits, List.mem_append] at hc
  rcases hc with hc | hc
  · rw [List.eq_of_mem_replicate hc]
    decide
  · exact natDigits_all_digit m c hc

theorem digitsVal_replicate_zero_append (k : ℕ) (l : List Char) :
    digitsVal (List.replicate k '0' ++ l) = digitsVal l := by
  rw [digitsVal, List.foldl_append]
  have h0 : List.foldl (fun a c => 10 * a + (c.toNat - 48)) 0
      (List.replicate k '0') = 0 := by
    induction k with
    | zero => rfl
    | succ n ih => rw [List.replicate_succ, List.foldl_cons]; exact ih
  rw [h0]
  rfl

theorem digitsVal_fracDigits (k m : ℕ) : digitsVal (fracDigits k m) = m := by
  rw [fracDigits, digitsVal_replicate_zero_append, digitsVal_natDigits]

theorem dvd_pow_ten {d m : ℕ} (hd : d ≠ 0) (h : d ∣ 10 ^ m) : d ∣ 10 ^ d := by
  have h2 : d ∣ 2 ^ m * 5 ^ m := by
    rw [← Nat.mul_pow]
    norm_num
    exact h
  have hg : d ∣ Nat.gcd d (2 ^ m) * Nat.gcd d (5 ^ m) := by
    have h3 := Nat.gcd_mul_dvd_mul_gcd d (2 ^ m) (5 ^ m)
    rwa [Nat.gcd_eq_left h2] at h3
  obtain ⟨a, -, ha2⟩ := (Nat.dvd_prime_pow Nat.prime_two).mp (Nat.gcd_dvd_right d (2 ^ m))
  obtain ⟨b, -, hb2⟩ := (Nat.dvd_prime_pow (by norm_num : Nat.Prime 5)).mp
    (Nat.gcd_dvd_right d (5 ^ m))
  have h2d : 2 ^ a ∣ d := ha2 ▸ Nat.gcd_dvd_left d (2 ^ m)
  have h5d : 5 ^ b ∣ d := hb2 ▸ Nat.gcd_dvd_left d (5 ^ m)
  have hal : a ≤ d :=
    le_trans (le_of_lt (Nat.lt_two_pow a)) (Nat.le_of_dvd (Nat.pos_of_ne_zero hd) h2d)
  have hbl : b ≤ d :=
    le_trans (le_of_lt (lt_of_lt_of_le (Nat.lt_two_pow b)
      (Nat.pow_le_pow_left (by norm_num) b)))
      (Nat.le_of_dvd (Nat.pos_of_ne_zero hd) h5d)
  calc d ∣ 2 ^ a * 5 ^ b := by
        rw [← ha2, ← hb2]
        exact hg
    _ ∣ 2 ^ d * 5 ^ d := mul_dvd_mul (pow_dvd_pow 2 hal) (pow_dvd_pow 5 hbl)
    _ = 10 ^ d := by
        rw [← Nat.mul_pow]

theorem mkRat_den_dvd (n : ℤ) (d : ℕ) : (mkRat n d).den ∣ d := by
  have h := Rat.den_dvd n (d : ℤ)
  rw [← Rat.mkRat_eq_divInt] at h
  exact_mod_cast h

theorem decValue_den (neg : Bool) (ip : ℕ) (fr : List Char) :
    (decValue neg ip fr).den ∣ 10 ^ fr.length :=
  mkRat_den_dvd _ _

theorem takeWhile_all_append {p : Char → Bool} :
    ∀ (ds rest : List Char), (∀ c ∈ ds, p c = true) →
      (∀ c, rest.head? = some c → p c = false) →
      (ds ++ rest).takeWhile p = ds ∧ (ds ++ rest).dropWhile p = rest
  | [], rest, _, h2 => by
    cases rest with
    | nil => exact ⟨rfl, rfl⟩
    | cons c t =>
      rw [List.nil_append, List.takeWhile_cons, List.dropWhile_cons, h2 c rfl]
      exact ⟨rfl, rfl⟩
  | d :: ds, rest, h1, h2 => by
    obtain ⟨ht, hd⟩ := takeWhile_all_append ds rest
      (fun c hc => h1 c (List.mem_cons_of_mem d hc)) h2
    rw [List.cons_append, List.takeWhile_cons, List.dropWhile_cons,
      h1 d (List.mem_cons_self d ds)]
    rw [ht, hd]
    exact ⟨rfl, rfl⟩

theorem isDigit_ne {c : Char} (h : c.isDigit = true) :
    c ≠ '-' ∧ c ≠ '.' ∧ c ≠ ',' := by
  refine ⟨fun h0 => ?_, fun h0 => ?_, fun h0 => ?_⟩ <;>
    (subst h0; exact absurd h (by decide))

theorem fmtNat_head_digit (n : ℕ) : ∃ c cs, fmtNat n = c :: cs ∧ c.isDigit = true := by
  cases h : fmtNat n with
  | nil => exact absurd h (fmtNat_ne_nil n)
  | cons c cs => exact ⟨c, cs, rfl, fmtNat_all_digit n c (h ▸ List.mem_cons_self c cs)⟩

theorem natField_append (n : ℕ) (rest : List Char)
    (hrest : ∀ c, rest.head? = some c → Char.isDigit c = false) :
    natField (fmtNat n ++ rest) = some (n, rest) := by
  obtain ⟨ht, hd⟩ := takeWhile_all_append (fmtNat n) rest (fmtNat_all_digit n) hrest
  have hne : (fmtNat n).isEmpty = false := by
    cases h : fmtNat n with
    | nil => exact absurd h (fmtNat_ne_nil n)
    | cons c cs => rfl
  simp only [natField, ht, hd, hne, digitsVal_fmtNat n]
  rfl

theorem natFieldComma_append (n : ℕ) (rest : List Char) :
    natFieldComma (fmtNat n ++ ',' :: rest) = some (n, rest) := by
  have h := natField_append n (',' :: rest) (by
    intro c hc
    rw [List.head?_cons, Option.some_inj] at hc
    subst hc
    decide)
  rw [natFieldComma, h]
  rfl

theorem natField_fmtNat (n : ℕ) : natField (fmtNat n) = some (n, []) := by
  have h := natField_append n [] (by intro c hc; exact absurd hc (by simp))
  rw [List.append_nil] at h
  exact h

theorem num_eq_of_sign (q : ℚ) (neg : Bool) (hsign : neg = decide (q.num < 0)) :
    (if neg then -(q.num.natAbs : ℤ) else (q.num.natAbs : ℤ)) = q.num := by
  by_cases h : q.num < 0
  · rw [hsign, decide_eq_true h, if_pos rfl]
    rw [Int.ofNat_natAbs_of_nonpos (le_of_lt h)]
    ring
  · rw [hsign, decide_eq_false h, if_neg (by simp)]
    exact Int.natAbs_of_nonneg (le_of_not_lt h)

theorem decValue_int (q : ℚ) (hd1 : q.den = 1) (neg : Bool)
    (hsign : neg = decide (q.num < 0)) :
    decValue neg q.num.natAbs [] = q := by
  rw [decValue]
  have h1 : (q.num.natAbs : ℤ) * 10 ^ List.length ([] : List Char) +
      (digitsVal [] : ℤ) = (q.num.natAbs : ℤ) := by
    simp [digitsVal]
  rw [show (10 : ℕ) ^ List.length ([] : List Char) = 1 from rfl]
  have h2 : (if neg then -((q.num.natAbs : ℤ) * 10 ^ List.length ([] : List Char) +
      (digitsVal [] : ℤ)) else ((q.num.natAbs : ℤ) * 10 ^ List.length ([] : List Char) +
      (digitsVal [] : ℤ))) = q.num := by
    rw [h1]
    exact num_eq_of_sign q neg hsign
  rw [h2, Rat.mkRat_one]
  have := Rat.num_div_den q
  rw [hd1] at this
  simpa using this

theorem decValue_frac (q : ℚ) (hdvd : q.den ∣ 10 ^ q.den)
    (neg : Bool) (hsign : neg = decide (q.num < 0)) :
    decValue neg (q.num.natAbs * 10 ^ q.den / q.den / 10 ^ q.den)
      (fracDigits q.den (q.num.natAbs * 10 ^ q.den / q.den % 10 ^ q.den)) = q := by
  have hdpos : 0 < q.den := q.pos
  have hppos : 0 < 10 ^ q.den := by positivity
  have hm : q.num.natAbs * 10 ^ q.den / q.den % 10 ^ q.den < 10 ^ q.den :=
    Nat.mod_lt _ hppos
  have hlen := fracDigits_length hm
  have hval := digitsVal_fracDigits q.den (q.num.natAbs * 10 ^ q.den / q.den % 10 ^ q.den)
  rw [decValue]
  rw [hlen, hval]
  set t := q.num.natAbs * 10 ^ q.den / q.den with hts
  have ht : ((t / 10 ^ q.den : ℕ) : ℤ) * 10 ^ q.den + ((t % 10 ^ q.den : ℕ) : ℤ) =
      (t : ℤ) := by
    push_cast
    rw [mul_comm]
    exact_mod_cast Nat.div_add_mod t (10 ^ q.den)
  rw [ht]
  have htd : t * q.den = q.num.natAbs * 10 ^ q.den := by
    rw [hts, Nat.div_mul_cancel (Dvd.dvd.mul_left hdvd q.num.natAbs)]
  have hbase : mkRat (t : ℤ) (10 ^ q.den) = (q.num.natAbs : ℚ) / (q.den : ℚ) := by
    rw [Rat.mkRat_eq_div]
    rw [div_eq_div_iff (by positivity) (Nat.cast_ne_zero.mpr hdpos.ne')]
    push_cast
    exact_mod_cast congrArg (fun x : ℕ => (x : ℚ)) htd
  by_cases hneg : q.num < 0
  · rw [hsign, decide_eq_true hneg, if_pos rfl]
    have : mkRat (-(t : ℤ)) (10 ^ q.den) = -mkRat (t : ℤ) (10 ^ q.den) := by
      rw [Rat.mkRat_eq_div, Rat.mkRat_eq_div]
      push_cast
      ring
    rw [this, hbase]
    have hz : ((q.num.natAbs : ℤ) : ℚ) = ((-q.num : ℤ) : ℚ) := by
      rw [Int.ofNat_natAbs_of_nonpos (le_of_lt hneg)]
    rw [Int.cast_natCast] at hz
    have hnum : ((q.num.natAbs : ℕ) : ℚ) = -(q.num : ℚ) := by
      rw [hz, Int.cast_neg]
    rw [hnum]
    rw [neg_div, neg_neg]
    exact Rat.num_div_den q
  · rw [hsign, decide_eq_false hneg, if_neg (by simp)]
    rw [hbase]
    have hz : ((q.num.natAbs : ℤ) : ℚ) = ((q.num : ℤ) : ℚ) := by
      rw [Int.natAbs_of_nonneg (le_of_not_lt hneg)]
    rw [Int.cast_natCast] at hz
    have hnum : ((q.num.natAbs : ℕ) : ℚ) = (q.num : ℚ) := hz
    rw [hnum]
    exact Rat.num_div_den q

theorem decField_int_append (neg : Bool) (ip : ℕ) (rest : List Char)
    (hrest : rest.head? = some ',') :
    decField ((if neg then ['-'] else []) ++ (fmtNat ip ++ rest)) =
      some (decValue neg ip [], rest) := by
  obtain ⟨c, cs, hc, hcd⟩ := fmtNat_head_digit ip
  have hrestd : ∀ c0, rest.head? = some c0 → Char.isDigit c0 = false := by
    intro c0 hc0
    rw [hrest, Option.some_inj] at hc0
    subst hc0
    decide
  obtain ⟨htw, hdw⟩ := takeWhile_all_append (fmtNat ip) rest (fmtNat_all_digit ip) hrestd
  have hne : (fmtNat ip).isEmpty = false := by
    cases h : fmtNat ip with
    | nil => exact absurd h (fmtNat_ne_nil ip)
    | cons a b => rfl
  cases neg with
  | false =>
    rw [if_neg (by simp), List.nil_append]
    have hh : ((fmtNat ip ++ rest).head? == some '-') = false := by
      rw [hc, List.cons_append, List.head?_cons]
      simp only [beq_eq_false_iff_ne, ne_eq, Option.some.injEq]
      exact (isDigit_ne hcd).1
    simp only [decField, hh, Bool.false_eq_true, if_false, ite_false, htw, hdw, hne,
      hrest, digitsVal_fmtNat ip, beq_self_eq_true, ite_true]
    rfl

  | true =>
    rw [if_pos rfl, List.singleton_append]
    have hh : (('-' :: (fmtNat ip ++ rest)).head? == some '-') = true := by
      rw [List.head?_cons]
      simp
    simp only [decField, hh, ite_true, List.tail_cons, htw, hdw, hne, hrest,
      digitsVal_fmtNat ip, Bool.false_eq_true, ite_false]
    rfl

theorem decField_frac_append (neg : Bool) (ip : ℕ) (fr rest : List Char)
    (hfr : ∀ c ∈ fr, c.isDigit = true) (hfrne : fr ≠ [])
    (hrest : rest.head? = some ',') :
    decField ((if neg then ['-'] else []) ++ (fmtNat ip ++ ('.' :: (fr ++ rest)))) =
      some (decValue neg ip fr, rest) := by
  obtain ⟨c, cs, hc, hcd⟩ := fmtNat_head_digit ip
  have hdotd : ∀ c0, ('.' :: (fr ++ rest)).head? = some c0 → Char.isDigit c0 = false := by
    intro c0 hc0
    rw [List.head?_cons, Option.some_inj] at hc0
    subst hc0
    decide
  have hrestd : ∀ c0, rest.head? = some c0 → Char.isDigit c0 = false := by
    intro c0 hc0
    rw [hrest, Option.some_inj] at hc0
    subst hc0
    decide
  obtain ⟨htw, hdw⟩ := takeWhile_all_append (fmtNat ip) ('.' :: (fr ++ rest))
    (fmtNat_all_digit ip) hdotd
  obtain ⟨htw2, hdw2⟩ := takeWhile_all_append fr rest hfr hrestd
  have hne : (fmtNat ip).isEmpty = false := by
    cases h : fmtNat ip with
    | nil => exact absurd h (fmtNat_ne_nil ip)
    | cons a b => rfl
  have hfne : fr.isEmpty = false := by
    cases h : fr with
    | nil => exact absurd h hfrne
    | cons a b => rfl
  cases neg with
  | false =>
    rw [if_neg (by simp), List.nil_append]
    have hh : ((fmtNat ip ++ ('.' :: (fr ++ rest))).head? == some '-') = false := by
      rw [hc, List.cons_append, List.head?_cons]
      simp only [beq_eq_false_iff_ne, ne_eq, Option.some.injEq]
      exact (isDigit_ne hcd).1
    simp only [decField, hh, Bool.false_eq_true, ite_false, htw, hdw, hne,
      List.head?_cons, List.tail_cons, htw2, hdw2, hfne, digitsVal_fmtNat ip,
      beq_self_eq_true, ite_true]
  | true =>
    rw [if_pos rfl, List.singleton_append]
    have hh : (('-' :: (fmtNat ip ++ ('.' :: (fr ++ rest)))).head? == some '-') = true := by
      rw [List.head?_cons]
      simp
    simp only [decField, hh, ite_true, List.tail_cons, htw, hdw, hne,
      List.head?_cons, htw2, hdw2, hfne, digitsVal_fmtNat ip,
      Bool.false_eq_true, ite_false, beq_self_eq_true]

theorem decFieldComma_fmtDec (q : ℚ) (hdvd : q.den ∣ 10 ^ q.den) (rest : List Char) :
    decFieldComma (fmtDec q ++ ',' :: rest) = some (q, rest) := by
  by_cases hd1 : q.den = 1
  · have hfd : fmtDec q =
        (if (decide (q.num < 0)) then ['-'] else []) ++ fmtNat q.num.natAbs := by
      rw [fmtDec, if_pos hd1]
      congr 1
      by_cases hneg : q.num < 0
      · rw [if_pos hneg, decide_eq_true hneg, if_pos rfl]
      · rw [if_neg hneg, decide_eq_false hneg, if_neg (by simp)]
    have h := decField_int_append (decide (q.num < 0)) q.num.natAbs (',' :: rest) rfl
    rw [decValue_int q hd1 _ rfl] at h
    rw [decFieldComma, hfd, List.append_assoc, h]
    rfl
  · have hm : q.num.natAbs * 10 ^ q.den / q.den % 10 ^ q.den < 10 ^ q.den :=
      Nat.mod_lt _ (by positivity)
    have hfrne : fracDigits q.den (q.num.natAbs * 10 ^ q.den / q.den % 10 ^ q.den) ≠ [] := by
      have hlen := fracDigits_length hm
      intro h0
      rw [h0] at hlen
      exact q.den_nz hlen.symm
    have hfd : fmtDec q =
        (if (decide (q.num < 0)) then ['-'] else []) ++
          (fmtNat (q.num.natAbs * 10 ^ q.den / q.den / 10 ^ q.den) ++
            ('.' :: fracDigits q.den (q.num.natAbs * 10 ^ q.den / q.den % 10 ^ q.den))) := by
      rw [fmtDec, if_neg hd1]
      rw [← List.append_assoc]
      by_cases hneg : q.num < 0
      · rw [if_pos hneg, decide_eq_true hneg, if_pos rfl]
      · rw [if_neg hneg, decide_eq_false hneg, if_neg (by simp)]
    have h := decField_frac_append (decide (q.num < 0))
      (q.num.natAbs * 10 ^ q.den / q.den / 10 ^ q.den)
      (fracDigits q.den (q.num.natAbs * 10 ^ q.den / q.den % 10 ^ q.den)) (',' :: rest)
      (fracDigits_all_digit _ _) hfrne rfl
    rw [decValue_frac q hdvd _ rfl] at h
    rw [decFieldComma, hfd, List.append_assoc]
    rw [show fmtNat (q.num.natAbs * 10 ^ q.den / q.den / 10 ^ q.den) ++
        ('.' :: fracDigits q.den (q.num.natAbs * 10 ^ q.den / q.den % 10 ^ q.den)) ++
        ',' :: rest =
      fmtNat (q.num.natAbs * 10 ^ q.den / q.den / 10 ^ q.den) ++
        ('.' :: (fracDigits q.den (q.num.natAbs * 10 ^ q.den / q.den % 10 ^ q.den) ++
          ',' :: rest)) from by simp [List.append_assoc]]
    rw [h]
    rfl

theorem decField_den (l : List Char) (q : ℚ) (r : List Char)
    (h : decField l = some (q, r)) : ∃ L, q.den ∣ 10 ^ L := by
  rw [decField] at h
  dsimp only at h
  repeat' split at h
  all_goals try exact Option.noConfusion h
  all_goals
    obtain ⟨hq, -⟩ := Prod.mk.inj (Option.some_inj.mp h)
  all_goals exact ⟨_, hq ▸ decValue_den _ _ _⟩

theorem decFieldComma_den (l : List Char) (q : ℚ) (r : List Char)
    (h : decFieldComma l = some (q, r)) : ∃ L, q.den ∣ 10 ^ L := by
  rw [decFieldComma] at h
  split at h
  · rename_i q' r' heq
    obtain ⟨h1, h2⟩ := Prod.mk.injEq .. ▸ Option.some_inj.mp h
    subst h1
    exact decField_den l q' (',' :: r') heq
  · exact absurd h (by simp)

theorem parseTimingLine_dens (line : List Char) (tp : TimingPoint)
    (h : parseTimingLine line = some tp) :
    (∃ L, tp.time.den ∣ 10 ^ L) ∧ (∃ L, tp.beatLength.den ∣ 10 ^ L) := by
  rw [parseTimingLine] at h
  repeat' split at h
  all_goals try exact Option.noConfusion h
  all_goals (obtain rfl := (Option.some_inj.mp h).symm)
  all_goals
    exact ⟨decFieldComma_den _ _ _ (by assumption),
      decFieldComma_den _ _ _ (by assumption)⟩

theorem parseTimingLine_formatTP (tp : TimingPoint)
    (ht : tp.time.den ∣ 10 ^ tp.time.den)
    (hb : tp.beatLength.den ∣ 10 ^ tp.beatLength.den) :
    parseTimingLine (formatTimingPoint tp) = some tp := by
  by_cases hu : tp.uninherited = true
  · simp only [formatTimingPoint, hu, eq_self_iff_true, ite_true, List.singleton_append,
      parseTimingLine, decFieldComma_fmtDec tp.time ht,
      decFieldComma_fmtDec tp.beatLength hb, natFieldComma_append, natField_fmtNat]
    rw [show (('1' == '0') || ('1' == '1')) = true from rfl, if_pos rfl]
    rw [show ('1' == '1') = tp.uninherited from by rw [hu]; decide]
  · have hu' : tp.uninherited = false := Bool.not_eq_true _ ▸ hu
    simp only [formatTimingPoint, hu', Bool.false_eq_true, ite_false, List.singleton_append,
      parseTimingLine, decFieldComma_fmtDec tp.time ht,
      decFieldComma_fmtDec tp.beatLength hb, natFieldComma_append, natField_fmtNat]
    rw [show (('0' == '0') || ('0' == '1')) = true from rfl, if_pos rfl]
    rw [show ('0' == '1') = tp.uninherited from by rw [hu']; decide]


/-- C8: for every line that matches the valid 8-field timing-point
shape, parsing it, formatting the resulting record back to its canonical
comma-separated form, and re-parsing yields a record equal
field-for-field to the first. -/
theorem timing_line_round_trip :
    ∀ (line : List Char) (tp : TimingPoint),
      parseTimingLine line = some tp →
        parseTimingLine (formatTimingPoint tp) = some tp := by
  intro line tp h
  obtain ⟨⟨L1, h1⟩, ⟨L2, h2⟩⟩ := parseTimingLine_dens line tp h
  exact parseTimingLine_formatTP tp
    (dvd_pow_ten tp.time.den_nz h1)
    (dvd_pow_ten tp.beatLength.den_nz h2)

/-- Witness for C8 at the concrete line `100,-50.5,4,0,0,70,1,0`. -/
theorem timing_line_round_trip_witness :
    parseTimingLine (formatTimingPoint tpA) = some tpA :=
  timing_line_round_trip ((r"100,-50.5,4,0,0,70,1,0").data) tpA (by rfl)

end WebMania
